import Mathlib

/-!
Verification of the agent-manager merge/manifest/safety core.

This file gives a shallow embedding, in Lean 4, of the parts of the
agent-manager repository that the verified properties talk about:

* `core/safety.py`   — clobber detection (`check_clobber`,
  `should_write_file`) and directory-type validation
  (`validate_directory_type`, `should_proceed_on_type_mismatch`);
* `core/manifest.py` — the manifest ledger (`get_manifest_entry`,
  `is_managed`, `add_or_update_entry`, `remove_agent_from_entry`,
  `cleanup_stale_files`, `read_manifest`, `file_hash`);
* `plugins/agents/agent.py` — the merge engine
  (`merge_configurations`) and the hook pipeline (`run_hook`).

Modelling conventions:

* The target directory's on-disk contents are modelled as an
  association list `FS` from relative path to file content; the first
  binding for a path is the file's content (`FS.lookup`), so the model
  doubles as `Path.exists` (`FS.pathExists`).  A path that cannot be
  read (missing or unreadable) is simply absent from the list.
* Python dictionaries preserve insertion order; they are modelled as
  association lists where updates rewrite the first matching binding
  in place and new keys are appended.
* Exceptions raised by externally supplied functions (hooks) are
  modelled by `Except`; a raised exception is the `.error` case.
* External collaborators are passed in as functions: the
  recoverability oracle `repo.safe_to_overwrite` as
  `Option (String → Bool)`, the directory-kind detector's output as an
  `Option String`, the SHA-256 hex digest as an abstract
  `hashHex : String → String` (no verified property depends on the
  digest's value, only on when it is computed at all), and the
  success/failure of `Path.unlink` as an oracle `String → Bool`.
-/

/-- On-disk contents of one target directory: an association list from
relative path to file content.  Absence from the list models a path
that does not exist (or cannot be read). -/
abbrev FS := List (String × String)

/-- Content of the file at `path`, if it exists. -/
def FS.lookup (fs : FS) (path : String) : Option String :=
  (List.find? (fun kv => kv.1 = path) fs).map (fun kv => kv.2)

/-- Embeds `Path.exists` for a path inside the target directory. -/
def FS.pathExists (fs : FS) (path : String) : Bool :=
  (fs.lookup path).isSome

/-- Embeds `Path.write_text`: replace the first binding for `path`, or
append a new one. -/
def FS.write : FS → String → String → FS
  | [], path, content => [(path, content)]
  | kv :: rest, path, content =>
      if kv.1 = path then (path, content) :: rest
      else kv :: FS.write rest path content

/-- Embeds `Path.unlink`: remove every binding for `path`. -/
def FS.erase (fs : FS) (path : String) : FS :=
  fs.filter (fun kv => kv.1 ≠ path)

/-- One entry of the manifest ledger (`{"name": .., "agents": ..,
"hash": ..}` in `core/manifest.py`). -/
structure ManEntry where
  name : String
  agents : List String
  hash : String
deriving Repr, DecidableEq

/-- The manifest document: `{"last_synced": .., "files": [..]}`. -/
structure Manifest where
  last_synced : Option String
  files : List ManEntry
deriving Repr, DecidableEq

/-- Embeds `get_manifest_entry` from `core/manifest.py`: first entry
whose `name` equals `file_name`. -/
def get_manifest_entry (manifest : Manifest) (file_name : String) : Option ManEntry :=
  manifest.files.find? (fun e => e.name = file_name)

/-- Embeds `is_managed` from `core/manifest.py`. -/
def is_managed (manifest : Manifest) (file_name : String) : Bool :=
  (get_manifest_entry manifest file_name).isSome

/-- Embeds class `ClobberAction` from `core/safety.py`: the result of a
clobber check for a single file.  The Python class stores the verdict
as one of four string constants. -/
structure ClobberAction where
  action : String
  file_name : String
  reason : String
deriving Repr, DecidableEq

/-- String constant `ClobberAction.SAFE`. -/
def ClobberAction.SAFE : String := "safe"

/-- String constant `ClobberAction.CLOBBER_RECOVERABLE`. -/
def ClobberAction.CLOBBER_RECOVERABLE : String := "clobber_recoverable"

/-- String constant `ClobberAction.CLOBBER_RISKY`. -/
def ClobberAction.CLOBBER_RISKY : String := "clobber_risky"

/-- String constant `ClobberAction.NEW_FILE`. -/
def ClobberAction.NEW_FILE : String := "new_file"

/-- Embeds property `ClobberAction.is_safe`. -/
def ClobberAction.is_safe (c : ClobberAction) : Bool :=
  c.action = ClobberAction.SAFE || c.action = ClobberAction.NEW_FILE

/-- Embeds `check_clobber` from `core/safety.py`.  `base_directory` is
the target directory's contents; `repo` is the optional repo plugin,
reduced to its `safe_to_overwrite` oracle applied to the file's path. -/
def check_clobber (file_name : String) (base_directory : FS) (manifest : Manifest)
    (repo : Option (String → Bool)) : ClobberAction :=
  if is_managed manifest file_name then
    ⟨ClobberAction.SAFE, file_name, "file tracked in manifest"⟩
  else if ! base_directory.pathExists file_name then
    ⟨ClobberAction.NEW_FILE, file_name, "file does not exist yet"⟩
  else
    match repo with
    | some safe_to_overwrite =>
        if safe_to_overwrite file_name then
          ⟨ClobberAction.CLOBBER_RECOVERABLE, file_name,
            "file exists (unmanaged) but is recoverable via VCS"⟩
        else
          ⟨ClobberAction.CLOBBER_RISKY, file_name,
            "file exists (unmanaged) and cannot be recovered"⟩
    | none =>
        ⟨ClobberAction.CLOBBER_RISKY, file_name,
          "file exists (unmanaged) and cannot be recovered"⟩

/-- Embeds `should_write_file` from `core/safety.py`: safe and new
files are always written; a recoverable clobber is written only under
`force`; a risky clobber is written under `force`, otherwise skipped
(both with `non_interactive` and in the interactive default). -/
def should_write_file (clobber : ClobberAction) (force : Bool)
    (non_interactive : Bool) : Bool :=
  if clobber.is_safe then true
  else if clobber.action = ClobberAction.CLOBBER_RECOVERABLE then
    if force then true
    else false
  else
    if force then true
    else if non_interactive then false
    else false

/-- Embeds class `TypeValidation` from `core/safety.py`. -/
structure TypeValidation where
  result : String
  configured : Option String
  detected : Option String
  message_text : String
deriving Repr, DecidableEq

/-- String constant `TypeValidation.MATCH`. -/
def TypeValidation.MATCH : String := "match"

/-- String constant `TypeValidation.MISMATCH`. -/
def TypeValidation.MISMATCH : String := "mismatch"

/-- String constant `TypeValidation.NO_CONFIG`. -/
def TypeValidation.NO_CONFIG : String := "no_config"

/-- String constant `TypeValidation.NOT_EXISTS`. -/
def TypeValidation.NOT_EXISTS : String := "not_exists"

/-- Embeds property `TypeValidation.ok`. -/
def TypeValidation.ok (v : TypeValidation) : Bool :=
  v.result = TypeValidation.MATCH || v.result = TypeValidation.NO_CONFIG

/-- Embeds `validate_directory_type` from `core/safety.py`.
`path_exists` stands for `path.exists()` and `detected` for
`AbstractRepo.detect_directory(path)` (an external detector). -/
def validate_directory_type (path_exists : Bool) (detected : Option String)
    (configured_type : Option String) : TypeValidation :=
  if ! path_exists then
    ⟨TypeValidation.NOT_EXISTS, configured_type, none, "Directory does not exist"⟩
  else
    match configured_type with
    | none => ⟨TypeValidation.NO_CONFIG, none, detected, "No type configured"⟩
    | some c =>
        if some c = detected then
          ⟨TypeValidation.MATCH, some c, detected, ""⟩
        else
          ⟨TypeValidation.MISMATCH, some c, detected, "Directory type mismatch"⟩

/-- Embeds `should_proceed_on_type_mismatch` from `core/safety.py`. -/
def should_proceed_on_type_mismatch (validation : TypeValidation) (force : Bool)
    (non_interactive : Bool) : Bool :=
  if validation.ok then true
  else if validation.result = TypeValidation.NOT_EXISTS then false
  else
    if force then true
    else if non_interactive then false
    else false

/-- Embeds `_file_hash` from `core/manifest.py`: the SHA-256 hex
digest of the file's bytes, or the empty string if the file cannot be
read.  The digest computation itself (`hashlib.sha256(..).hexdigest()`)
is external and abstracted as `hashHex`; no verified property depends
on the digest's value. -/
def file_hash (hashHex : String → String) (fs : FS) (path : String) : String :=
  match fs.lookup path with
  | some content => hashHex content
  | none => ""

/-- Replace the first element satisfying `p` by its `f`-image (Python
mutates, in place, the entry object returned by `get_manifest_entry`,
which is the first match in the `files` list). -/
def updateFirst (p : α → Bool) (f : α → α) : List α → List α
  | [] => []
  | x :: xs => if p x then f x :: xs else x :: updateFirst p f xs

/-- Embeds `add_or_update_entry` from `core/manifest.py`: if an entry
for `file_name` exists, append `agent_name` to its agents (unless
already present) and refresh its hash; otherwise append a new entry. -/
def add_or_update_entry (hashHex : String → String) (manifest : Manifest)
    (file_name agent_name : String) (fs : FS) (file_path : String) : Manifest :=
  let new_hash := file_hash hashHex fs file_path
  match get_manifest_entry manifest file_name with
  | some _ =>
      { manifest with
          files := updateFirst (fun e => e.name = file_name)
            (fun e =>
              { e with
                  agents :=
                    if e.agents.contains agent_name then e.agents
                    else e.agents ++ [agent_name],
                  hash := new_hash })
            manifest.files }
  | none =>
      { manifest with
          files := manifest.files ++ [⟨file_name, [agent_name], new_hash⟩] }

/-- Embeds `remove_agent_from_entry` from `core/manifest.py`: remove
`agent_name` from the entry's agents (first occurrence, no-op when
absent); if the agents list becomes empty, drop every entry with that
name from the manifest and report `true`. -/
def remove_agent_from_entry (manifest : Manifest) (file_name agent_name : String) :
    Manifest × Bool :=
  match get_manifest_entry manifest file_name with
  | none => (manifest, false)
  | some entry =>
      let agents2 := entry.agents.erase agent_name
      let files2 := updateFirst (fun e => e.name = file_name)
        (fun e => { e with agents := agents2 }) manifest.files
      if agents2.isEmpty then
        ({ manifest with files := files2.filter (fun e => e.name ≠ file_name) }, true)
      else
        ({ manifest with files := files2 }, false)

/-- One iteration of the `cleanup_stale_files` loop, over one entry of
the snapshot taken at loop entry.  The state is (manifest, disk
contents, deleted names so far); `unlink_ok` tells whether
`Path.unlink` succeeds (an `OSError` is caught and logged). -/
def cleanup_step (unlink_ok : String → Bool) (agent_name : String)
    (current_files : List String) (st : Manifest × FS × List String)
    (entry : ManEntry) : Manifest × FS × List String :=
  if ! entry.agents.contains agent_name then st
  else if current_files.contains entry.name then st
  else if (remove_agent_from_entry st.1 entry.name agent_name).2 then
    if st.2.1.pathExists entry.name then
      if unlink_ok entry.name then
        ((remove_agent_from_entry st.1 entry.name agent_name).1,
          st.2.1.erase entry.name, st.2.2 ++ [entry.name])
      else ((remove_agent_from_entry st.1 entry.name agent_name).1, st.2.1, st.2.2)
    else ((remove_agent_from_entry st.1 entry.name agent_name).1, st.2.1, st.2.2)
  else ((remove_agent_from_entry st.1 entry.name agent_name).1, st.2.1, st.2.2)

/-- Embeds `cleanup_stale_files` from `core/manifest.py`: iterate over
a snapshot of the manifest's entries; for each entry listing
`agent_name` whose name is not in `current_files`, remove the agent,
and when the entry is fully removed delete the file from disk.
Returns the final manifest, the final disk contents, and the list of
names deleted from disk. -/
def cleanup_stale_files (base_directory : FS) (unlink_ok : String → Bool)
    (manifest : Manifest) (agent_name : String) (current_files : List String) :
    Manifest × FS × List String :=
  manifest.files.foldl (cleanup_step unlink_ok agent_name current_files)
    (manifest, base_directory, [])

/-- The spec invariant: no manifest entry has an empty agent set. -/
def noEmptyAgents (m : Manifest) : Prop :=
  ∀ e ∈ m.files, e.agents ≠ []

/-- The per-entry effect `cleanup_stale_files` is claimed to have: an
entry not naming the agent, or whose name is still currently produced,
is kept; otherwise the agent is removed, and the entry disappears when
no agents remain. -/
def staleResult (agent_name : String) (current_files : List String)
    (e : ManEntry) : Option ManEntry :=
  if ! e.agents.contains agent_name then some e
  else if current_files.contains e.name then some e
  else if (e.agents.erase agent_name).isEmpty then none
  else some { e with agents := e.agents.erase agent_name }

/-- Whether `cleanup_stale_files` deletes this entry's file from disk:
the entry is fully removed, the file exists, and `unlink` succeeds. -/
def staleDeleted (fs : FS) (unlink_ok : String → Bool) (agent_name : String)
    (current_files : List String) (e : ManEntry) : Bool :=
  (staleResult agent_name current_files e).isNone
    && fs.pathExists e.name && unlink_ok e.name

/-- Minimal model of a parsed YAML document as produced by
`yaml.safe_load` in `read_manifest`. -/
inductive Yaml where
  | null : Yaml
  | bool : Bool → Yaml
  | str : String → Yaml
  | int : Int → Yaml
  | seq : List Yaml → Yaml
  | dict : List (String × Yaml) → Yaml

/-- First value bound to `k` in a YAML mapping. -/
def lookupKey (kvs : List (String × Yaml)) (k : String) : Option Yaml :=
  (List.find? (fun kv => kv.1 = k) kvs).map (fun kv => kv.2)

/-- Embeds Python `dict.setdefault(k, v)`: keep an existing binding,
append the default otherwise. -/
def setdefault (kvs : List (String × Yaml)) (k : String) (v : Yaml) :
    List (String × Yaml) :=
  if (lookupKey kvs k).isSome then kvs else kvs ++ [(k, v)]

/-- Embeds `_empty_manifest` from `core/manifest.py`. -/
def empty_manifest : Yaml :=
  Yaml.dict [("last_synced", Yaml.null), ("files", Yaml.seq [])]

/-- Embeds `read_manifest` from `core/manifest.py`.  The argument
models the outcome of reading and parsing the manifest file: `none`
when the file does not exist, `some (.error e)` when opening or
parsing raises (the Python code catches the exception and warns), and
`some (.ok y)` for a successfully parsed document `y`.  The function
is total: every outcome yields a manifest dictionary. -/
def read_manifest : Option (Except String Yaml) → Yaml
  | none => empty_manifest
  | some (Except.error _) => empty_manifest
  | some (Except.ok y) =>
      match y with
      | Yaml.dict kvs =>
          Yaml.dict
            (setdefault (setdefault kvs "last_synced" Yaml.null) "files" (Yaml.seq []))
      | _ => empty_manifest

/-- A registered hook, as stored in `pre_merge_hooks` /
`post_merge_hooks`: a content transform that may raise.  The extra
call context (hierarchy entry and source path for pre-merge hooks,
output key and source list for post-merge hooks) is captured in the
closure; a raised exception is the `.error` case. -/
abbrev Hook := String → Except String String

/-- Embeds `_run_hook` from `plugins/agents/agent.py`: every
registered hook whose pattern matches the file name fires, in
registration order, each receiving the previous hook's output; a
raising hook is caught and logged and the content it received is
kept, the remaining hooks still run.  `fm` stands for
`fnmatch.fnmatch` from the Python standard library (name, pattern). -/
def run_hook (fm : String → String → Bool) (hooks : List (String × Hook))
    (file_name : String) (content : String) : String :=
  hooks.foldl
    (fun c ph =>
      if fm file_name ph.1 then
        match ph.2 c with
        | Except.ok c2 => c2
        | Except.error _ => c
      else c)
    content

/-- Executable model of `fnmatch.fnmatch` (on character lists) for the
pattern features the repository's hook patterns use: `*` (any run),
`?` (any single character), literal characters.  Every step shortens
`pattern ++ name`, so recursion on that bound as fuel is exact. -/
def globMatchFuel : Nat → List Char → List Char → Bool
  | 0, _, _ => false
  | _ + 1, [], [] => true
  | _ + 1, [], _ :: _ => false
  | n + 1, '*' :: ps, [] => globMatchFuel n ps []
  | n + 1, '*' :: ps, c :: cs =>
      globMatchFuel n ps (c :: cs) || globMatchFuel n ('*' :: ps) cs
  | _ + 1, '?' :: _, [] => false
  | n + 1, '?' :: ps, _ :: cs => globMatchFuel n ps cs
  | _ + 1, _ :: _, [] => false
  | n + 1, p :: ps, c :: cs => (p = c) && globMatchFuel n ps cs

/-- `fnmatch.fnmatch(name, pattern)` via `globMatchFuel` with enough
fuel. -/
def globFnmatch (name pattern : String) : Bool :=
  globMatchFuel (pattern.length + name.length + 1) pattern.toList name.toList

/-- One level of the source hierarchy, as consumed by
`merge_configurations`: the entry's unique name, its optional scope
restriction, whether its repository path exists on disk, that path,
and the configuration files discovered under the agent subdirectory
(relative key ↦ content, in the sorted order `_discover_files`
returns; a file whose read fails is modelled as absent).  The repo
object itself stays opaque. -/
structure HierEntry where
  name : String
  scopes : Option (List String)
  present : Bool
  repoPath : String
  files : List (String × String)

/-- Embeds `_should_include_entry_for_scope` from
`plugins/agents/agent.py`. -/
def should_include_entry_for_scope (entry : HierEntry) (scope : String) : Bool :=
  match entry.scopes with
  | none => true
  | some ss => ss.contains scope

/-- A merger's `merge(existing, new, contributing_name, prior_sources,
**settings)`, with the per-type settings from the configuration
already applied. -/
abbrev Merger := String → String → String → List String → String

/-- The merger registry reduced to its dispatch result: the merger
selected for a file (`merger_registry.get_merger`), which depends only
on the file's name and extension — both determined by the relative
key, shared by every source contributing that key. -/
abbrev GetMerger := String → Merger

/-- A pre-merge hook as registered: `(content, entry, file_path)`. -/
abbrev PreHook := String → HierEntry → String → Except String String

/-- A post-merge hook as registered: `(content, file_name, sources)`. -/
abbrev PostHook := String → String → List String → Except String String

/-- Pre-merge hook application for one file of one hierarchy entry:
`self._run_hook(self.pre_merge_hooks, file_key, content, entry,
file_path)`. -/
def apply_pre_hooks (fm : String → String → Bool)
    (pre_hooks : List (String × PreHook)) (entry : HierEntry)
    (file_key content : String) : String :=
  run_hook fm
    (pre_hooks.map (fun ph =>
      (ph.1, fun c => ph.2 c entry (entry.repoPath ++ "/" ++ file_key))))
    file_key content

/-- Post-merge hook application for one output key:
`self._run_hook(self.post_merge_hooks, file_key, content, None, None,
sources)`. -/
def apply_post_hooks (fm : String → String → Bool)
    (post_hooks : List (String × PostHook)) (file_key : String)
    (sources : List String) (content : String) : String :=
  run_hook fm
    (post_hooks.map (fun ph => (ph.1, fun c => ph.2 c file_key sources)))
    file_key content

/-- The accumulator `merged_files` of `merge_configurations`: a Python
dict from file key to (content, contributing source names), in
insertion order. -/
abbrev MergedMap := List (String × String × List String)

/-- First binding of `k` in the accumulator. -/
def MergedMap.lookup (mm : MergedMap) (k : String) : Option (String × List String) :=
  (List.find? (fun kv => kv.1 = k) mm).map (fun kv => kv.2)

/-- Python dict assignment: overwrite the existing binding in place,
or append a new one. -/
def MergedMap.set : MergedMap → String → String × List String → MergedMap
  | [], k, v => [(k, v)]
  | kv :: rest, k, v =>
      if kv.1 = k then (k, v) :: rest else kv :: MergedMap.set rest k v

/-- The per-file body of `merge_configurations`' discovery loop: run
pre-merge hooks, then either merge into the existing accumulation for
the key (appending the source name) or seed it. -/
def process_file (fm : String → String → Bool) (get_merger : GetMerger)
    (pre_hooks : List (String × PreHook)) (entry : HierEntry)
    (acc : MergedMap) (kv : String × String) : MergedMap :=
  let content := apply_pre_hooks fm pre_hooks entry kv.1 kv.2
  match acc.lookup kv.1 with
  | some es =>
      MergedMap.set acc kv.1
        (get_merger kv.1 es.1 content entry.name es.2, es.2 ++ [entry.name])
  | none => MergedMap.set acc kv.1 (content, [entry.name])

/-- One hierarchy entry of `merge_configurations`' outer loop: skipped
when not applicable to the scope or when its repository path is
absent (an entry with no files contributes nothing either way). -/
def process_entry (fm : String → String → Bool) (get_merger : GetMerger)
    (pre_hooks : List (String × PreHook)) (scope : String)
    (acc : MergedMap) (entry : HierEntry) : MergedMap :=
  if ! should_include_entry_for_scope entry scope then acc
  else if ! entry.present then acc
  else entry.files.foldl (process_file fm get_merger pre_hooks entry) acc

/-- The accumulation phase of `merge_configurations`: fold the
hierarchy, lowest to highest priority, into the `merged_files` map. -/
def accumulate_merged (fm : String → String → Bool) (get_merger : GetMerger)
    (pre_hooks : List (String × PreHook)) (scope : String)
    (hierarchy : List HierEntry) : MergedMap :=
  hierarchy.foldl (process_entry fm get_merger pre_hooks scope) []

/-- The write phase of `merge_configurations`: post-merge hooks, then
a write of every accumulated key (`write_ok` models whether
`write_text` raises; a failed write is caught and leaves the disk
unchanged).  The source consults neither the Safety Evaluator nor the
Manifest here: each accumulated file is written unconditionally. -/
def write_phase (fm : String → String → Bool)
    (post_hooks : List (String × PostHook)) (write_ok : String → Bool)
    (output_dir : FS) (merged : MergedMap) : FS :=
  merged.foldl
    (fun fs kv =>
      let content := apply_post_hooks fm post_hooks kv.1 kv.2.2 kv.2.1
      if write_ok kv.1 then fs.write kv.1 content else fs)
    output_dir

/-- Embeds `merge_configurations` from `plugins/agents/agent.py`:
accumulate merged content across the hierarchy, then write the
accumulated files into the output directory, whose resulting contents
are returned.  The function has no manifest input or output and
performs no clobber check. -/
def merge_configurations (fm : String → String → Bool) (get_merger : GetMerger)
    (pre_hooks : List (String × PreHook)) (post_hooks : List (String × PostHook))
    (scope : String) (hierarchy : List HierEntry) (write_ok : String → Bool)
    (output_dir : FS) : FS :=
  write_phase fm post_hooks write_ok output_dir
    (accumulate_merged fm get_merger pre_hooks scope hierarchy)

/-- The contributions a hierarchy makes to one output key, in
processing order: the (entry, raw content) pairs for files with that
key inside entries that are in scope and present. -/
def contributions (scope : String) (k : String) : List HierEntry → List (HierEntry × String)
  | [] => []
  | e :: hs =>
      (if should_include_entry_for_scope e scope && e.present
       then (e.files.filter (fun kv => kv.1 = k)).map (fun kv => (e, kv.2))
       else [])
      ++ contributions scope k hs

/-- The effect one contribution has on one key's accumulation: seed
with the pre-hooked content, or merge into the existing content and
append the source name. -/
def key_step (fm : String → String → Bool) (get_merger : GetMerger)
    (pre_hooks : List (String × PreHook)) (k : String)
    (st : Option (String × List String)) (ec : HierEntry × String) :
    Option (String × List String) :=
  match st with
  | some es =>
      some (get_merger k es.1 (apply_pre_hooks fm pre_hooks ec.1 k ec.2) ec.1.name es.2,
        es.2 ++ [ec.1.name])
  | none => some (apply_pre_hooks fm pre_hooks ec.1 k ec.2, [ec.1.name])

/-- A key's accumulation as determined by its contribution sequence
alone. -/
def key_result (fm : String → String → Bool) (get_merger : GetMerger)
    (pre_hooks : List (String × PreHook)) (k : String)
    (contribs : List (HierEntry × String)) : Option (String × List String) :=
  contribs.foldl (key_step fm get_merger pre_hooks k) none

lemma should_write_file_of_safe (c : ClobberAction) (force non_interactive : Bool)
    (h : c.is_safe = true) : should_write_file c force non_interactive = true := by
  simp [should_write_file, h]

lemma should_write_file_of_clobber (c : ClobberAction) (force non_interactive : Bool)
    (h : c.is_safe = false) : should_write_file c force non_interactive = force := by
  unfold should_write_file
  rw [h]
  by_cases hr : c.action = ClobberAction.CLOBBER_RECOVERABLE <;> simp [hr]

lemma is_safe_of_action_safe (c : ClobberAction)
    (h : c.action = ClobberAction.SAFE ∨ c.action = ClobberAction.NEW_FILE) :
    c.is_safe = true := by
  unfold ClobberAction.is_safe
  rcases h with h | h <;> rw [h] <;> decide

lemma is_safe_of_action_clobber (c : ClobberAction)
    (h : c.action = ClobberAction.CLOBBER_RECOVERABLE ∨
         c.action = ClobberAction.CLOBBER_RISKY) :
    c.is_safe = false := by
  unfold ClobberAction.is_safe
  rcases h with h | h <;> rw [h] <;> decide

/-- C2: for every combination of manifest state, on-disk state and
recoverability-oracle result, `check_clobber` returns exactly one of
the four verdicts (in-manifest gives SAFE; not on disk gives NEW_FILE;
on disk, unmanaged, oracle true gives CLOBBER_RECOVERABLE; on disk,
unmanaged, oracle false or absent gives CLOBBER_RISKY), the four
verdict constants being pairwise distinct; and `should_write_file` is
true for SAFE and NEW_FILE under every flag combination, and true for
CLOBBER_RECOVERABLE or CLOBBER_RISKY if and only if `force` is set. -/
theorem check_clobber_verdict_totality
    (file_name : String) (fs : FS) (m : Manifest) (repo : Option (String → Bool))
    (force non_interactive : Bool) :
    ((check_clobber file_name fs m repo).action = ClobberAction.SAFE ∨
     (check_clobber file_name fs m repo).action = ClobberAction.NEW_FILE ∨
     (check_clobber file_name fs m repo).action = ClobberAction.CLOBBER_RECOVERABLE ∨
     (check_clobber file_name fs m repo).action = ClobberAction.CLOBBER_RISKY)
    ∧ (ClobberAction.SAFE ≠ ClobberAction.NEW_FILE ∧
       ClobberAction.SAFE ≠ ClobberAction.CLOBBER_RECOVERABLE ∧
       ClobberAction.SAFE ≠ ClobberAction.CLOBBER_RISKY ∧
       ClobberAction.NEW_FILE ≠ ClobberAction.CLOBBER_RECOVERABLE ∧
       ClobberAction.NEW_FILE ≠ ClobberAction.CLOBBER_RISKY ∧
       ClobberAction.CLOBBER_RECOVERABLE ≠ ClobberAction.CLOBBER_RISKY)
    ∧ (is_managed m file_name = true →
        (check_clobber file_name fs m repo).action = ClobberAction.SAFE)
    ∧ (is_managed m file_name = false → fs.pathExists file_name = false →
        (check_clobber file_name fs m repo).action = ClobberAction.NEW_FILE)
    ∧ (∀ oracle, is_managed m file_name = false → fs.pathExists file_name = true →
        repo = some oracle → oracle file_name = true →
        (check_clobber file_name fs m repo).action = ClobberAction.CLOBBER_RECOVERABLE)
    ∧ (is_managed m file_name = false → fs.pathExists file_name = true →
        (repo = none ∨ ∃ oracle, repo = some oracle ∧ oracle file_name = false) →
        (check_clobber file_name fs m repo).action = ClobberAction.CLOBBER_RISKY)
    ∧ (∀ c : ClobberAction,
        c.action = ClobberAction.SAFE ∨ c.action = ClobberAction.NEW_FILE →
        should_write_file c force non_interactive = true)
    ∧ (∀ c : ClobberAction,
        c.action = ClobberAction.CLOBBER_RECOVERABLE ∨
        c.action = ClobberAction.CLOBBER_RISKY →
        should_write_file c force non_interactive = force) := by
  refine ⟨?_, by decide, ?_, ?_, ?_, ?_, ?_, ?_⟩
  · by_cases h1 : is_managed m file_name
    · simp [check_clobber, h1]
    · by_cases h2 : fs.pathExists file_name
      · rcases repo with _ | oracle
        · simp [check_clobber, h1, h2]
        · by_cases h3 : oracle file_name <;> simp [check_clobber, h1, h2, h3]
      · simp [check_clobber, h1, h2]
  · intro h1
    simp [check_clobber, h1]
  · intro h1 h2
    simp [check_clobber, h1, h2]
  · intro oracle h1 h2 h3 h4
    subst h3
    simp [check_clobber, h1, h2, h4]
  · intro h1 h2 h3
    rcases h3 with h3 | ⟨oracle, h3, h4⟩ <;> subst h3
    · simp [check_clobber, h1, h2]
    · simp [check_clobber, h1, h2, h4]
  · intro c hc
    exact should_write_file_of_safe c force non_interactive (is_safe_of_action_safe c hc)
  · intro c hc
    exact should_write_file_of_clobber c force non_interactive (is_safe_of_action_clobber c hc)

/-- Witness for C2 at concrete inputs: an on-disk unmanaged file with
no oracle is a risky clobber, and a risky clobber is written exactly
under `force`. -/
theorem check_clobber_verdict_totality_witness :
    (check_clobber "notes.txt" [("notes.txt", "old")] ⟨none, []⟩ none).action
      = ClobberAction.CLOBBER_RISKY
    ∧ should_write_file ⟨ClobberAction.CLOBBER_RISKY, "notes.txt", ""⟩ true false = true := by
  have h := check_clobber_verdict_totality "notes.txt" [("notes.txt", "old")]
    ⟨none, []⟩ none true false
  refine ⟨h.2.2.2.2.2.1 (by decide) (by decide) (Or.inl rfl), ?_⟩
  have h2 := h.2.2.2.2.2.2.2 ⟨ClobberAction.CLOBBER_RISKY, "notes.txt", ""⟩ (Or.inr rfl)
  exact h2

/-- C3: a file name present in the manifest is always judged SAFE by
`check_clobber`, regardless of the on-disk state and regardless of the
recoverability oracle. -/
theorem is_managed_always_safe (m : Manifest) (file_name : String) (fs : FS)
    (repo : Option (String → Bool)) (h : is_managed m file_name = true) :
    (check_clobber file_name fs m repo).action = ClobberAction.SAFE := by
  simp [check_clobber, h]

/-- Witness for C3: a managed file that has drifted on disk and whose
oracle answers false is still SAFE. -/
theorem is_managed_always_safe_witness :
    (check_clobber "a.md" [("a.md", "drifted content")]
      ⟨some "2026-01-01T00:00:00+00:00", [⟨"a.md", ["claude"], "h1"⟩]⟩
      (some (fun _ => false))).action = ClobberAction.SAFE :=
  is_managed_always_safe _ "a.md" _ _ (by decide)

/-- C8: `validate_directory_type` always yields one of the four
results, and `should_proceed_on_type_mismatch` lets MATCH and
NO_CONFIG always proceed, always skips on NOT_EXISTS, and on MISMATCH
proceeds exactly when `force` is set (both `non_interactive` and the
interactive default skip). -/
theorem directory_type_policy
    (path_exists : Bool) (detected configured : Option String)
    (v : TypeValidation) (force non_interactive : Bool) :
    ((validate_directory_type path_exists detected configured).result
        = TypeValidation.MATCH ∨
     (validate_directory_type path_exists detected configured).result
        = TypeValidation.MISMATCH ∨
     (validate_directory_type path_exists detected configured).result
        = TypeValidation.NO_CONFIG ∨
     (validate_directory_type path_exists detected configured).result
        = TypeValidation.NOT_EXISTS)
    ∧ (v.result = TypeValidation.MATCH ∨ v.result = TypeValidation.NO_CONFIG →
        should_proceed_on_type_mismatch v force non_interactive = true)
    ∧ (v.result = TypeValidation.NOT_EXISTS →
        should_proceed_on_type_mismatch v force non_interactive = false)
    ∧ (v.result = TypeValidation.MISMATCH →
        should_proceed_on_type_mismatch v force non_interactive = force) := by
  refine ⟨?_, ?_, ?_, ?_⟩
  · cases path_exists
    · simp [validate_directory_type]
    · rcases configured with _ | c
      · simp [validate_directory_type]
      · by_cases h : some c = detected <;> simp [validate_directory_type, h]
  · intro h
    have hok : v.ok = true := by
      unfold TypeValidation.ok
      rcases h with h | h <;> rw [h] <;> decide
    simp [should_proceed_on_type_mismatch, hok]
  · intro h
    have hok : v.ok = false := by
      unfold TypeValidation.ok
      rw [h]; decide
    simp [should_proceed_on_type_mismatch, hok, h]
  · intro h
    have hok : v.ok = false := by
      unfold TypeValidation.ok
      rw [h]; decide
    have hne : v.result = TypeValidation.NOT_EXISTS ↔ False := by
      rw [h]; simp [TypeValidation.MISMATCH, TypeValidation.NOT_EXISTS]
    unfold should_proceed_on_type_mismatch
    rw [hok]
    simp only [hne]
    cases force <;> cases non_interactive <;> simp

/-- Witness for C8: a MISMATCH verdict proceeds under `force` even
with `non_interactive` set. -/
theorem directory_type_policy_witness :
    should_proceed_on_type_mismatch
      ⟨TypeValidation.MISMATCH, some "git", some "file", "mismatch"⟩ true true = true := by
  have h := directory_type_policy true (some "file") (some "git")
    ⟨TypeValidation.MISMATCH, some "git", some "file", "mismatch"⟩ true true
  exact h.2.2.2 rfl

lemma mem_updateFirst {α : Type _} (p : α → Bool) (f : α → α) (l : List α) (x : α)
    (hx : x ∈ updateFirst p f l) :
    x ∈ l ∨ ∃ y ∈ l, p y = true ∧ x = f y := by
  induction l with
  | nil => simp [updateFirst] at hx
  | cons a as ih =>
      by_cases hp : p a
      · simp only [updateFirst, hp, if_true] at hx
        rcases List.mem_cons.mp hx with hx | hx
        · exact Or.inr ⟨a, List.mem_cons_self a as, hp, hx⟩
        · exact Or.inl (List.mem_cons_of_mem _ hx)
      · simp only [updateFirst, hp, if_false, Bool.false_eq_true] at hx
        rcases List.mem_cons.mp hx with hx | hx
        · exact Or.inl (by simp [hx])
        · rcases ih hx with h | ⟨y, hy, hpy, hxy⟩
          · exact Or.inl (List.mem_cons_of_mem _ h)
          · exact Or.inr ⟨y, List.mem_cons_of_mem _ hy, hpy, hxy⟩

lemma add_or_update_entry_preserves (hashHex : String → String) (m : Manifest)
    (file_name agent_name : String) (fs : FS) (file_path : String)
    (h : noEmptyAgents m) :
    noEmptyAgents (add_or_update_entry hashHex m file_name agent_name fs file_path) := by
  intro e he
  unfold add_or_update_entry at he
  split at he
  · rcases mem_updateFirst _ _ _ _ he with hm | ⟨y, hy, _, hxy⟩
    · exact h e hm
    · subst hxy
      by_cases hc : agent_name ∈ y.agents
      · simpa [hc] using h y hy
      · simp [hc]
  · rcases List.mem_append.mp he with hm | hm
    · exact h e hm
    · simp only [List.mem_singleton] at hm
      subst hm
      simp

lemma remove_agent_from_entry_preserves (m : Manifest) (file_name agent_name : String)
    (h : noEmptyAgents m) :
    noEmptyAgents (remove_agent_from_entry m file_name agent_name).1 := by
  unfold remove_agent_from_entry
  split
  · exact h
  case h_2 entry hge =>
    by_cases hemp : (entry.agents.erase agent_name).isEmpty
    · simp only [hemp, if_true]
      intro e he
      have hmf := List.mem_filter.mp he
      rcases mem_updateFirst _ _ _ _ hmf.1 with hm | ⟨y, hy, hpy, hxy⟩
      · exact h e hm
      · exfalso
        have : e.name = file_name := by
          subst hxy
          exact of_decide_eq_true hpy
        have hne : ¬ (e.name = file_name) := by
          simpa using hmf.2
        exact hne this
    · simp only [hemp, if_false, Bool.false_eq_true]
      intro e he
      rcases mem_updateFirst _ _ _ _ he with hm | ⟨y, hy, _, hxy⟩
      · exact h e hm
      · subst hxy
        simp only []
        intro hnil
        rw [hnil] at hemp
        exact hemp rfl

lemma cleanup_step_preserves (unlink_ok : String → Bool) (agent_name : String)
    (current_files : List String) (st : Manifest × FS × List String) (entry : ManEntry)
    (h : noEmptyAgents st.1) :
    noEmptyAgents (cleanup_step unlink_ok agent_name current_files st entry).1 := by
  have hr := remove_agent_from_entry_preserves st.1 entry.name agent_name h
  unfold cleanup_step
  split
  · exact h
  · split
    · exact h
    · split
      · split
        · split
          · exact hr
          · exact hr
        · exact hr
      · exact hr

lemma foldl_preserves {σ α : Type _} (P : σ → Prop) (f : σ → α → σ)
    (hf : ∀ s a, P s → P (f s a)) :
    ∀ (l : List α) (s : σ), P s → P (l.foldl f s) := by
  intro l
  induction l with
  | nil => exact fun s hs => hs
  | cons a as ih => exact fun s hs => ih _ (hf _ _ hs)

/-- C9: starting from a manifest in which every entry has a non-empty
agent list, each of `add_or_update_entry`, `remove_agent_from_entry`
and `cleanup_stale_files` preserves the invariant that no manifest
entry has an empty agent set. -/
theorem manifest_ops_preserve_nonempty_agents
    (hashHex : String → String) (m : Manifest) (file_name agent_name : String)
    (fs : FS) (file_path : String) (unlink_ok : String → Bool)
    (current_files : List String) (h : noEmptyAgents m) :
    noEmptyAgents (add_or_update_entry hashHex m file_name agent_name fs file_path)
    ∧ noEmptyAgents (remove_agent_from_entry m file_name agent_name).1
    ∧ noEmptyAgents (cleanup_stale_files fs unlink_ok m agent_name current_files).1 := by
  refine ⟨add_or_update_entry_preserves hashHex m file_name agent_name fs file_path h,
    remove_agent_from_entry_preserves m file_name agent_name h, ?_⟩
  exact foldl_preserves (fun st => noEmptyAgents st.1) _
    (fun st e => cleanup_step_preserves unlink_ok agent_name current_files st e)
    m.files (m, fs, []) h

/-- Witness for C9 at a concrete manifest. -/
theorem manifest_ops_preserve_nonempty_agents_witness :
    noEmptyAgents (add_or_update_entry (fun s => s)
      ⟨none, [⟨"a.txt", ["claude"], "h"⟩]⟩ "a.txt" "claude" [("a.txt", "body")] "a.txt")
    ∧ noEmptyAgents (remove_agent_from_entry
      ⟨none, [⟨"a.txt", ["claude"], "h"⟩]⟩ "a.txt" "claude").1
    ∧ noEmptyAgents (cleanup_stale_files [("a.txt", "body")] (fun _ => true)
      ⟨none, [⟨"a.txt", ["claude"], "h"⟩]⟩ "claude" []).1 :=
  manifest_ops_preserve_nonempty_agents (fun s => s)
    ⟨none, [⟨"a.txt", ["claude"], "h"⟩]⟩ "a.txt" "claude" [("a.txt", "body")] "a.txt"
    (fun _ => true) [] (by unfold noEmptyAgents; decide)

lemma find?_append_none {α : Type _} (p : α → Bool) (l1 l2 : List α)
    (h : ∀ x ∈ l1, p x = false) :
    List.find? p (l1 ++ l2) = List.find? p l2 := by
  induction l1 with
  | nil => rfl
  | cons a as ih =>
      have ha := h a (List.mem_cons_self a as)
      simp only [List.cons_append, List.find?_cons, ha]
      exact ih (fun x hx => h x (List.mem_cons_of_mem _ hx))

lemma find?_updateFirst {α : Type _} (p : α → Bool) (f : α → α)
    (hf : ∀ x, p x = true → p (f x) = true) (l : List α) :
    List.find? p (updateFirst p f l) = (List.find? p l).map f := by
  induction l with
  | nil => rfl
  | cons a as ih =>
      by_cases hp : p a
      · simp [updateFirst, hp, List.find?_cons, hf a hp]
      · simp [updateFirst, hp, List.find?_cons, ih]

lemma contains_append_singleton (l : List String) (a : String) :
    (l ++ [a]).contains a = true := by
  have : a ∈ l ++ [a] := by simp
  exact List.elem_iff.mpr this

lemma get_after_add_none (hashHex : String → String) (m : Manifest)
    (file_name agent_name : String) (fs : FS) (file_path : String)
    (hge : get_manifest_entry m file_name = none) :
    get_manifest_entry (add_or_update_entry hashHex m file_name agent_name fs file_path)
        file_name
      = some ⟨file_name, [agent_name], file_hash hashHex fs file_path⟩ := by
  have hall : ∀ x ∈ m.files, decide (x.name = file_name) = false := by
    intro x hx
    have := List.find?_eq_none.mp hge x hx
    simpa using this
  unfold add_or_update_entry
  rw [hge]
  show List.find? _ (m.files ++ _) = _
  rw [find?_append_none _ _ _ hall]
  simp [List.find?_cons]

lemma get_after_add_some (hashHex : String → String) (m : Manifest)
    (file_name agent_name : String) (fs : FS) (file_path : String) (entry : ManEntry)
    (hge : get_manifest_entry m file_name = some entry) :
    get_manifest_entry (add_or_update_entry hashHex m file_name agent_name fs file_path)
        file_name
      = some { entry with
          agents := if entry.agents.contains agent_name then entry.agents
            else entry.agents ++ [agent_name],
          hash := file_hash hashHex fs file_path } := by
  unfold add_or_update_entry
  rw [hge]
  show List.find? _ (updateFirst _ _ m.files) = _
  rw [find?_updateFirst (fun e : ManEntry => decide (e.name = file_name))
    (fun e => { e with
        agents := if e.agents.contains agent_name then e.agents
          else e.agents ++ [agent_name],
        hash := file_hash hashHex fs file_path })
    (fun x hx => hx) m.files]
  show (get_manifest_entry m file_name).map _ = _
  rw [hge]
  rfl

/-- C10: when the file at `file_path` cannot be read, `file_hash`
returns the empty string instead of raising, and `add_or_update_entry`
therefore records a manifest entry for the current agent whose hash
field is the empty string. -/
theorem file_hash_unreadable_records_empty
    (hashHex : String → String) (fs : FS) (file_path : String) (m : Manifest)
    (file_name agent_name : String) (h : fs.lookup file_path = none) :
    file_hash hashHex fs file_path = ""
    ∧ ∃ e, get_manifest_entry
          (add_or_update_entry hashHex m file_name agent_name fs file_path) file_name
          = some e
        ∧ e.hash = "" ∧ e.agents.contains agent_name = true := by
  have hfh : file_hash hashHex fs file_path = "" := by
    simp [file_hash, h]
  refine ⟨hfh, ?_⟩
  cases hge : get_manifest_entry m file_name with
  | none =>
      refine ⟨⟨file_name, [agent_name], file_hash hashHex fs file_path⟩,
        get_after_add_none hashHex m file_name agent_name fs file_path hge,
        by simpa using hfh, ?_⟩
      exact contains_append_singleton [] agent_name
  | some entry =>
      refine ⟨_, get_after_add_some hashHex m file_name agent_name fs file_path entry hge,
        by simpa using hfh, ?_⟩
      show (if entry.agents.contains agent_name then entry.agents
        else entry.agents ++ [agent_name]).contains agent_name = true
      by_cases hc : entry.agents.contains agent_name
      · rw [if_pos hc]
        exact hc
      · rw [if_neg hc]
        exact contains_append_singleton entry.agents agent_name

/-- Witness for C10: adding an entry for a file missing from disk
records an empty hash. -/
theorem file_hash_unreadable_records_empty_witness :
    file_hash (fun s => s) [] "missing.txt" = ""
    ∧ ∃ e, get_manifest_entry
          (add_or_update_entry (fun s => s) ⟨none, []⟩ "missing.txt" "claude" [] "missing.txt")
          "missing.txt" = some e
        ∧ e.hash = "" ∧ e.agents.contains "claude" = true :=
  file_hash_unreadable_records_empty (fun s => s) [] "missing.txt" ⟨none, []⟩
    "missing.txt" "claude" (by decide)

lemma lookupKey_append (l1 l2 : List (String × Yaml)) (k : String) :
    lookupKey (l1 ++ l2) k = (lookupKey l1 k).or (lookupKey l2 k) := by
  unfold lookupKey
  rw [List.find?_append]
  cases hf : List.find? (fun kv => kv.1 = k) l1 <;> simp [hf]

lemma lookupKey_single (k1 k : String) (v : Yaml) :
    lookupKey [(k1, v)] k = if k1 = k then some v else none := by
  unfold lookupKey
  by_cases h : k1 = k <;> simp [List.find?_cons, h]

lemma lookupKey_setdefault_same (l : List (String × Yaml)) (k : String) (v : Yaml) :
    lookupKey (setdefault l k v) k = some ((lookupKey l k).getD v) := by
  unfold setdefault
  by_cases h : (lookupKey l k).isSome
  · rw [if_pos h]
    obtain ⟨w, hw⟩ := Option.isSome_iff_exists.mp h
    rw [hw]
    rfl
  · rw [if_neg h]
    have hn := Option.not_isSome_iff_eq_none.mp h
    rw [lookupKey_append, hn, lookupKey_single]
    simp

lemma lookupKey_setdefault_other (l : List (String × Yaml)) (k0 k : String) (v : Yaml)
    (hne : k0 ≠ k) :
    lookupKey (setdefault l k0 v) k = lookupKey l k := by
  unfold setdefault
  split
  · rfl
  · rw [lookupKey_append, lookupKey_single, if_neg hne]
    cases hf : lookupKey l k <;> simp [hf]

/-- C6: `read_manifest` never raises: a missing manifest file, a
raising read or parse, and a parsed non-dictionary document all yield
the empty manifest (null `last_synced`, empty `files`); a parsed
dictionary is returned with `last_synced` and `files` defaulted when
absent and every other key left untouched. -/
theorem read_manifest_never_fails
    (err : String) (y : Yaml) (kvs : List (String × Yaml)) (k : String) :
    read_manifest none
        = Yaml.dict [("last_synced", Yaml.null), ("files", Yaml.seq [])]
    ∧ read_manifest (some (Except.error err))
        = Yaml.dict [("last_synced", Yaml.null), ("files", Yaml.seq [])]
    ∧ ((∀ l, y ≠ Yaml.dict l) →
        read_manifest (some (Except.ok y))
          = Yaml.dict [("last_synced", Yaml.null), ("files", Yaml.seq [])])
    ∧ (∃ kvs2, read_manifest (some (Except.ok (Yaml.dict kvs))) = Yaml.dict kvs2
        ∧ lookupKey kvs2 "last_synced" = some ((lookupKey kvs "last_synced").getD Yaml.null)
        ∧ lookupKey kvs2 "files" = some ((lookupKey kvs "files").getD (Yaml.seq []))
        ∧ (k ≠ "last_synced" → k ≠ "files" → lookupKey kvs2 k = lookupKey kvs k)) := by
  refine ⟨rfl, rfl, ?_, ?_⟩
  · intro hy
    cases y <;> first | rfl | exact absurd rfl (hy _)
  · refine ⟨setdefault (setdefault kvs "last_synced" Yaml.null) "files" (Yaml.seq []),
      rfl, ?_, ?_, ?_⟩
    · rw [lookupKey_setdefault_other _ "files" "last_synced" _ (by decide)]
      exact lookupKey_setdefault_same kvs "last_synced" Yaml.null
    · rw [lookupKey_setdefault_same]
      rw [lookupKey_setdefault_other kvs "last_synced" "files" _ (by decide)]
    · intro h1 h2
      rw [lookupKey_setdefault_other _ "files" k _ (Ne.symm h2),
        lookupKey_setdefault_other _ "last_synced" k _ (Ne.symm h1)]

/-- Witness for C6: a non-dictionary document yields the empty
manifest, and a dictionary keeps its other keys. -/
theorem read_manifest_never_fails_witness :
    read_manifest (some (Except.ok (Yaml.seq [])))
      = Yaml.dict [("last_synced", Yaml.null), ("files", Yaml.seq [])]
    ∧ ∃ kvs2, read_manifest (some (Except.ok (Yaml.dict [("extra", Yaml.str "v")])))
        = Yaml.dict kvs2
      ∧ lookupKey kvs2 "extra" = lookupKey [("extra", Yaml.str "v")] "extra" := by
  have h := read_manifest_never_fails "boom" (Yaml.seq []) [("extra", Yaml.str "v")] "extra"
  refine ⟨h.2.2.1 (fun l hl => Yaml.noConfusion hl), ?_⟩
  obtain ⟨kvs2, h1, _, _, h4⟩ := h.2.2.2
  exact ⟨kvs2, h1, h4 (by decide) (by decide)⟩

lemma fs_lookup_cons (kv : String × String) (l : FS) (n : String) :
    FS.lookup (kv :: l) n = if kv.1 = n then some kv.2 else FS.lookup l n := by
  unfold FS.lookup
  by_cases h : kv.1 = n <;> simp [List.find?_cons, h]

lemma FS.erase_cons (kv : String × String) (l : FS) (n2 : String) :
    FS.erase (kv :: l) n2 = if kv.1 = n2 then FS.erase l n2 else kv :: FS.erase l n2 := by
  unfold FS.erase
  by_cases h : kv.1 = n2 <;> simp [List.filter_cons, h]

lemma lookup_erase_ne (fs : FS) (n2 n : String) (h : n2 ≠ n) :
    (fs.erase n2).lookup n = fs.lookup n := by
  induction fs with
  | nil => rfl
  | cons kv rest ih =>
      rw [FS.erase_cons]
      by_cases hk : kv.1 = n2
      · rw [if_pos hk, ih, fs_lookup_cons, if_neg (by rw [hk]; exact h)]
      · rw [if_neg hk, fs_lookup_cons, fs_lookup_cons, ih]

lemma pathExists_foldl_erase (del : List String) (fs : FS) (n : String)
    (h : n ∉ del) :
    (del.foldl FS.erase fs).pathExists n = fs.pathExists n := by
  induction del generalizing fs with
  | nil => rfl
  | cons d ds ih =>
      have hd : d ≠ n := fun hdn => h (by simp [hdn])
      have hds : n ∉ ds := fun hin => h (List.mem_cons_of_mem _ hin)
      show ((ds.foldl FS.erase (fs.erase d))).pathExists n = _
      rw [ih (fs.erase d) hds]
      unfold FS.pathExists
      rw [lookup_erase_ne fs d n hd]

lemma updateFirst_append_none {α : Type _} (p : α → Bool) (f : α → α)
    (l1 l2 : List α) (h : ∀ x ∈ l1, p x = false) :
    updateFirst p f (l1 ++ l2) = l1 ++ updateFirst p f l2 := by
  induction l1 with
  | nil => rfl
  | cons a as ih =>
      have ha := h a (List.mem_cons_self a as)
      simp only [List.cons_append, updateFirst, ha, Bool.false_eq_true, if_false]
      exact congrArg (List.cons a) (ih (fun x hx => h x (List.mem_cons_of_mem _ hx)))

lemma remove_agent_spec (m : Manifest) (done rest : List ManEntry) (e : ManEntry)
    (agent_name : String)
    (hfiles : m.files = done ++ e :: rest)
    (hdone : ∀ x ∈ done, x.name ≠ e.name)
    (hrest : ∀ x ∈ rest, x.name ≠ e.name) :
    remove_agent_from_entry m e.name agent_name
      = if (e.agents.erase agent_name).isEmpty
        then ({ m with files := done ++ rest }, true)
        else ({ m with files :=
            done ++ { e with agents := e.agents.erase agent_name } :: rest }, false) := by
  have hdone2 : ∀ x ∈ done, decide (x.name = e.name) = false := by
    intro x hx
    simpa using hdone x hx
  have hget : get_manifest_entry m e.name = some e := by
    unfold get_manifest_entry
    rw [hfiles, find?_append_none _ done _ hdone2]
    simp [List.find?_cons]
  have hupd : updateFirst (fun x => x.name = e.name)
      (fun x => { x with agents := e.agents.erase agent_name }) m.files
      = done ++ { e with agents := e.agents.erase agent_name } :: rest := by
    rw [hfiles, updateFirst_append_none _ _ done _ hdone2]
    show done ++ updateFirst _ _ (e :: rest) = _
    unfold updateFirst
    rw [if_pos (by simp)]
  by_cases hemp : (e.agents.erase agent_name).isEmpty
  · rw [if_pos hemp]
    simp only [remove_agent_from_entry, hget, hupd, hemp, if_true]
    refine Prod.ext ?_ rfl
    show Manifest.mk m.last_synced _ = Manifest.mk m.last_synced _
    congr 1
    rw [List.filter_append]
    have h1 : done.filter (fun x => x.name ≠ e.name) = done :=
      List.filter_eq_self.mpr (fun x hx => by simpa using hdone x hx)
    have h2 : ({ e with agents := e.agents.erase agent_name } :: rest).filter
        (fun x => x.name ≠ e.name) = rest := by
      rw [List.filter_cons]
      have he : (decide (({ e with agents := e.agents.erase agent_name } :
          ManEntry).name ≠ e.name)) = false := by simp
      rw [he]
      simp only [Bool.false_eq_true, if_false]
      exact List.filter_eq_self.mpr (fun x hx => by simpa using hrest x hx)
    rw [h1, h2]
  · rw [if_neg hemp]
    simp only [remove_agent_from_entry, hget, hupd, hemp, Bool.false_eq_true, if_false]

lemma cleanup_fold_spec (unlink_ok : String → Bool) (agent_name : String)
    (current_files : List String) (fs0 : FS) :
    ∀ (suffix done : List ManEntry) (m : Manifest) (fscur : FS) (del : List String),
      m.files = done ++ suffix →
      (∀ x ∈ done, ∀ y ∈ suffix, x.name ≠ y.name) →
      (suffix.map ManEntry.name).Nodup →
      (∀ y ∈ suffix, y.name ∉ del) →
      fscur = del.foldl FS.erase fs0 →
      (suffix.foldl (cleanup_step unlink_ok agent_name current_files)
          (m, fscur, del)).1.files
        = done ++ suffix.filterMap (staleResult agent_name current_files)
      ∧ (suffix.foldl (cleanup_step unlink_ok agent_name current_files)
          (m, fscur, del)).2.2
        = del ++ (suffix.filter
            (staleDeleted fs0 unlink_ok agent_name current_files)).map ManEntry.name
      ∧ (suffix.foldl (cleanup_step unlink_ok agent_name current_files)
          (m, fscur, del)).2.1
        = ((suffix.foldl (cleanup_step unlink_ok agent_name current_files)
            (m, fscur, del)).2.2).foldl FS.erase fs0 := by
  intro suffix
  induction suffix with
  | nil =>
      intro done m fscur del hfiles hdone hnodup hdel hfs
      refine ⟨by simpa using hfiles, by simp, by simpa using hfs⟩
  | cons e rest ih =>
      intro done m fscur del hfiles hdone hnodup hdel hfs
      have hnodup2 := hnodup
      simp only [List.map_cons, List.nodup_cons] at hnodup2
      have hnodup_head : e.name ∉ rest.map ManEntry.name := hnodup2.1
      have hnodup_tail : (rest.map ManEntry.name).Nodup := hnodup2.2
      have hrest_ne : ∀ x ∈ rest, x.name ≠ e.name := by
        intro x hx hxe
        exact hnodup_head (hxe ▸ List.mem_map_of_mem ManEntry.name hx)
      have hdone_e : ∀ x ∈ done, x.name ≠ e.name :=
        fun x hx => hdone x hx e (List.mem_cons_self e rest)
      have hdel_e : e.name ∉ del := hdel e (List.mem_cons_self e rest)
      have hdone_rest : ∀ x ∈ done, ∀ y ∈ rest, x.name ≠ y.name :=
        fun x hx y hy => hdone x hx y (List.mem_cons_of_mem _ hy)
      have hdel_rest : ∀ y ∈ rest, y.name ∉ del :=
        fun y hy => hdel y (List.mem_cons_of_mem _ hy)
      simp only [List.foldl_cons]
      by_cases hc1 : e.agents.contains agent_name
      case neg =>
        have hstep : cleanup_step unlink_ok agent_name current_files (m, fscur, del) e
            = (m, fscur, del) := by
          unfold cleanup_step
          rw [if_pos (show (! e.agents.contains agent_name) = true by
            rw [Bool.eq_false_iff.mpr hc1]; rfl)]
        have hsr : staleResult agent_name current_files e = some e := by
          unfold staleResult
          rw [if_pos (show (! e.agents.contains agent_name) = true by
            rw [Bool.eq_false_iff.mpr hc1]; rfl)]
        have hsd : staleDeleted fs0 unlink_ok agent_name current_files e = false := by
          unfold staleDeleted
          rw [hsr]
          rfl
        obtain ⟨ha, hb, hc⟩ := ih (done ++ [e]) m fscur del
          (by rw [hfiles, List.append_assoc]; rfl)
          (by
            intro x hx y hy
            rcases List.mem_append.mp hx with hx | hx
            · exact hdone_rest x hx y hy
            · simp only [List.mem_singleton] at hx
              subst hx
              exact fun hxy => hnodup_head (hxy ▸ List.mem_map_of_mem ManEntry.name hy))
          hnodup_tail hdel_rest hfs
        rw [hstep]
        refine ⟨?_, ?_, ?_⟩
        · rw [ha, List.filterMap_cons, hsr, List.append_assoc]
          rfl
        · rw [hb, List.filter_cons, hsd]
          simp only [Bool.false_eq_true, if_false]
        · exact hc
      case pos =>
        by_cases hc2 : current_files.contains e.name
        · have hstep : cleanup_step unlink_ok agent_name current_files (m, fscur, del) e
              = (m, fscur, del) := by
            unfold cleanup_step
            rw [if_neg (show ¬ ((! e.agents.contains agent_name) = true) by
              rw [hc1]; simp)]
            rw [if_pos hc2]
          have hsr : staleResult agent_name current_files e = some e := by
            unfold staleResult
            rw [if_neg (show ¬ ((! e.agents.contains agent_name) = true) by
              rw [hc1]; simp)]
            rw [if_pos hc2]
          have hsd : staleDeleted fs0 unlink_ok agent_name current_files e = false := by
            unfold staleDeleted
            rw [hsr]
            rfl
          obtain ⟨ha, hb, hc⟩ := ih (done ++ [e]) m fscur del
            (by rw [hfiles, List.append_assoc]; rfl)
            (by
              intro x hx y hy
              rcases List.mem_append.mp hx with hx | hx
              · exact hdone_rest x hx y hy
              · simp only [List.mem_singleton] at hx
                subst hx
                exact fun hxy => hnodup_head (hxy ▸ List.mem_map_of_mem ManEntry.name hy))
            hnodup_tail hdel_rest hfs
          rw [hstep]
          refine ⟨?_, ?_, ?_⟩
          · rw [ha, List.filterMap_cons, hsr, List.append_assoc]
            rfl
          · rw [hb, List.filter_cons, hsd]
            simp only [Bool.false_eq_true, if_false]
          · exact hc
        · have hrm := remove_agent_spec m done rest e agent_name hfiles hdone_e hrest_ne
          have hpe : fscur.pathExists e.name = fs0.pathExists e.name := by
            rw [hfs]
            exact pathExists_foldl_erase del fs0 e.name hdel_e
          by_cases hemp : (e.agents.erase agent_name).isEmpty
          · rw [if_pos hemp] at hrm
            have hsr : staleResult agent_name current_files e = none := by
              unfold staleResult
              rw [if_neg (show ¬ ((! e.agents.contains agent_name) = true) by
                rw [hc1]; simp)]
              rw [if_neg (by rw [Bool.eq_false_iff.mpr hc2]; simp), if_pos hemp]
            by_cases hex : fs0.pathExists e.name
            · by_cases hul : unlink_ok e.name
              · have hstep : cleanup_step unlink_ok agent_name current_files
                    (m, fscur, del) e
                    = ({ m with files := done ++ rest },
                        fscur.erase e.name, del ++ [e.name]) := by
                  unfold cleanup_step
                  rw [if_neg (show ¬ ((! e.agents.contains agent_name) = true) by
                    rw [hc1]; simp)]
                  rw [if_neg (by rw [Bool.eq_false_iff.mpr hc2]; simp)]
                  show (if (remove_agent_from_entry m e.name agent_name).2 = true
                    then _ else _) = _
                  rw [hrm]
                  show (if (fscur.pathExists e.name) = true then _ else _) = _
                  rw [hpe, if_pos hex, if_pos hul]
                have hsd : staleDeleted fs0 unlink_ok agent_name current_files e
                    = true := by
                  unfold staleDeleted
                  rw [hsr, hex, hul]
                  rfl
                obtain ⟨ha, hb, hc⟩ := ih done { m with files := done ++ rest }
                  (fscur.erase e.name) (del ++ [e.name]) rfl hdone_rest hnodup_tail
                  (by
                    intro y hy
                    rw [List.mem_append]
                    rintro (hin | hin)
                    · exact hdel_rest y hy hin
                    · simp only [List.mem_singleton] at hin
                      exact hrest_ne y hy hin)
                  (by rw [List.foldl_append, ← hfs]; rfl)
                rw [hstep]
                refine ⟨?_, ?_, ?_⟩
                · rw [ha, List.filterMap_cons, hsr]
                · rw [hb, List.filter_cons, hsd, List.append_assoc]
                  rfl
                · exact hc
              · have hstep : cleanup_step unlink_ok agent_name current_files
                    (m, fscur, del) e
                    = ({ m with files := done ++ rest }, fscur, del) := by
                  unfold cleanup_step
                  rw [if_neg (show ¬ ((! e.agents.contains agent_name) = true) by
                    rw [hc1]; simp)]
                  rw [if_neg (by rw [Bool.eq_false_iff.mpr hc2]; simp)]
                  show (if (remove_agent_from_entry m e.name agent_name).2 = true
                    then _ else _) = _
                  rw [hrm]
                  show (if (fscur.pathExists e.name) = true then _ else _) = _
                  rw [hpe, if_pos hex,
                    if_neg (show ¬ (unlink_ok e.name = true) from hul)]
                have hsd : staleDeleted fs0 unlink_ok agent_name current_files e
                    = false := by
                  unfold staleDeleted
                  rw [hsr, Bool.eq_false_iff.mpr hul]
                  simp
                obtain ⟨ha, hb, hc⟩ := ih done { m with files := done ++ rest }
                  fscur del rfl hdone_rest hnodup_tail hdel_rest hfs
                rw [hstep]
                refine ⟨?_, ?_, ?_⟩
                · rw [ha, List.filterMap_cons, hsr]
                · rw [hb, List.filter_cons, hsd]
                  simp only [Bool.false_eq_true, if_false]
                · exact hc
            · have hstep : cleanup_step unlink_ok agent_name current_files
                  (m, fscur, del) e
                  = ({ m with files := done ++ rest }, fscur, del) := by
                unfold cleanup_step
                rw [if_neg (show ¬ ((! e.agents.contains agent_name) = true) by
                  rw [hc1]; simp)]
                rw [if_neg (by rw [Bool.eq_false_iff.mpr hc2]; simp)]
                show (if (remove_agent_from_entry m e.name agent_name).2 = true
                  then _ else _) = _
                rw [hrm]
                show (if (fscur.pathExists e.name) = true then _ else _) = _
                rw [hpe, if_neg (show ¬ (fs0.pathExists e.name = true) from hex)]
              have hsd : staleDeleted fs0 unlink_ok agent_name current_files e
                  = false := by
                unfold staleDeleted
                rw [hsr, Bool.eq_false_iff.mpr hex]
                simp
              obtain ⟨ha, hb, hc⟩ := ih done { m with files := done ++ rest }
                fscur del rfl hdone_rest hnodup_tail hdel_rest hfs
              rw [hstep]
              refine ⟨?_, ?_, ?_⟩
              · rw [ha, List.filterMap_cons, hsr]
              · rw [hb, List.filter_cons, hsd]
                simp only [Bool.false_eq_true, if_false]
              · exact hc
          · rw [if_neg hemp] at hrm
            have hsr : staleResult agent_name current_files e
                = some { e with agents := e.agents.erase agent_name } := by
              unfold staleResult
              rw [if_neg (show ¬ ((! e.agents.contains agent_name) = true) by
                rw [hc1]; simp)]
              rw [if_neg (by rw [Bool.eq_false_iff.mpr hc2]; simp), if_neg hemp]
            have hsd : staleDeleted fs0 unlink_ok agent_name current_files e
                = false := by
              unfold staleDeleted
              rw [hsr]
              rfl
            have hstep : cleanup_step unlink_ok agent_name current_files
                (m, fscur, del) e
                = ({ m with files :=
                      done ++ { e with agents := e.agents.erase agent_name } :: rest },
                    fscur, del) := by
              unfold cleanup_step
              rw [if_neg (show ¬ ((! e.agents.contains agent_name) = true) by
                rw [hc1]; simp)]
              rw [if_neg (by rw [Bool.eq_false_iff.mpr hc2]; simp)]
              show (if (remove_agent_from_entry m e.name agent_name).2 = true
                then _ else _) = _
              rw [hrm]
              rfl
            obtain ⟨ha, hb, hc⟩ := ih
              (done ++ [{ e with agents := e.agents.erase agent_name }])
              { m with files :=
                  done ++ { e with agents := e.agents.erase agent_name } :: rest }
              fscur del (by rw [List.append_assoc]; rfl)
              (by
                intro x hx y hy
                rcases List.mem_append.mp hx with hx | hx
                · exact hdone_rest x hx y hy
                · simp only [List.mem_singleton] at hx
                  subst hx
                  exact fun hxy => hnodup_head (hxy ▸ List.mem_map_of_mem ManEntry.name hy))
              hnodup_tail hdel_rest hfs
            rw [hstep]
            refine ⟨?_, ?_, ?_⟩
            · rw [ha, List.filterMap_cons, hsr, List.append_assoc]
              rfl
            · rw [hb, List.filter_cons, hsd]
              simp only [Bool.false_eq_true, if_false]
            · exact hc

/-- C4: `cleanup_stale_files` removes the agent from exactly those
entries that name the agent and whose key is absent from the
current-key set; an entry whose agent set becomes empty is removed
from the manifest and its file deleted from disk (deletion failure is
non-fatal: the name is simply not reported as deleted); entries
co-owned by another agent keep the file on disk with only this agent
removed; the returned list contains precisely the keys whose files
were deleted, and the final disk state is the initial one with exactly
those keys erased.  Manifest entry names are unique keys (data-model
invariant), hence the `Nodup` hypothesis. -/
theorem cleanup_stale_files_spec
    (base_directory : FS) (unlink_ok : String → Bool) (m : Manifest)
    (agent_name : String) (current_files : List String)
    (hnodup : (m.files.map ManEntry.name).Nodup) :
    (cleanup_stale_files base_directory unlink_ok m agent_name current_files).1.files
        = m.files.filterMap (staleResult agent_name current_files)
    ∧ (cleanup_stale_files base_directory unlink_ok m agent_name current_files).2.2
        = (m.files.filter
            (staleDeleted base_directory unlink_ok agent_name current_files)).map
              ManEntry.name
    ∧ (cleanup_stale_files base_directory unlink_ok m agent_name current_files).2.1
        = ((cleanup_stale_files base_directory unlink_ok
            m agent_name current_files).2.2).foldl FS.erase base_directory := by
  have h := cleanup_fold_spec unlink_ok agent_name current_files base_directory
    m.files [] m base_directory [] rfl (by simp) hnodup (by simp) rfl
  unfold cleanup_stale_files
  simpa using h

/-- Witness for C4: one stale solely-owned entry is deleted from
manifest and disk, one stale co-owned entry keeps its file and loses
only this agent, one current entry is untouched. -/
theorem cleanup_stale_files_spec_witness :
    (cleanup_stale_files [("stale.txt", "s"), ("shared.txt", "x"), ("keep.txt", "k")]
        (fun _ => true)
        ⟨none, [⟨"stale.txt", ["claude"], "h1"⟩,
                ⟨"shared.txt", ["claude", "cursor"], "h2"⟩,
                ⟨"keep.txt", ["claude"], "h3"⟩]⟩
        "claude" ["keep.txt"]).1.files
      = [⟨"shared.txt", ["cursor"], "h2"⟩, ⟨"keep.txt", ["claude"], "h3"⟩]
    ∧ (cleanup_stale_files [("stale.txt", "s"), ("shared.txt", "x"), ("keep.txt", "k")]
        (fun _ => true)
        ⟨none, [⟨"stale.txt", ["claude"], "h1"⟩,
                ⟨"shared.txt", ["claude", "cursor"], "h2"⟩,
                ⟨"keep.txt", ["claude"], "h3"⟩]⟩
        "claude" ["keep.txt"]).2.2
      = ["stale.txt"]
    ∧ (cleanup_stale_files [("stale.txt", "s"), ("shared.txt", "x"), ("keep.txt", "k")]
        (fun _ => true)
        ⟨none, [⟨"stale.txt", ["claude"], "h1"⟩,
                ⟨"shared.txt", ["claude", "cursor"], "h2"⟩,
                ⟨"keep.txt", ["claude"], "h3"⟩]⟩
        "claude" ["keep.txt"]).2.1
      = [("shared.txt", "x"), ("keep.txt", "k")] := by
  have h := cleanup_stale_files_spec
    [("stale.txt", "s"), ("shared.txt", "x"), ("keep.txt", "k")] (fun _ => true)
    ⟨none, [⟨"stale.txt", ["claude"], "h1"⟩,
            ⟨"shared.txt", ["claude", "cursor"], "h2"⟩,
            ⟨"keep.txt", ["claude"], "h3"⟩]⟩
    "claude" ["keep.txt"] (by decide)
  refine ⟨?_, ?_, ?_⟩
  · rw [h.1]
    rfl
  · rw [h.2.1]
    rfl
  · rw [h.2.2, h.2.1]
    rfl

lemma run_hook_cons (fm : String → String → Bool) (ph : String × Hook)
    (hooks : List (String × Hook)) (n c : String) :
    run_hook fm (ph :: hooks) n c
      = run_hook fm hooks n
          (if fm n ph.1 then
            match ph.2 c with
            | Except.ok c2 => c2
            | Except.error _ => c
          else c) := rfl

lemma run_hook_filter (fm : String → String → Bool) (n : String) :
    ∀ (hooks : List (String × Hook)) (c : String),
      run_hook fm hooks n c
        = run_hook fm (hooks.filter (fun ph => fm n ph.1)) n c := by
  intro hooks
  induction hooks with
  | nil => intro c; rfl
  | cons ph hs ih =>
      intro c
      rw [run_hook_cons, List.filter_cons]
      by_cases hm : fm n ph.1 = true
      · rw [if_pos hm, if_pos hm, run_hook_cons, if_pos hm]
        exact ih _
      · rw [if_neg hm, if_neg hm]
        exact ih c

/-- C7: `_run_hook` applies exactly the hooks whose pattern matches
the file name, in registration order, chained (splitting the registry
anywhere composes); a hook returning normally passes its output on,
and a raising hook is caught, the content from before it is kept, and
the remaining hooks still run. -/
theorem hook_pipeline_spec
    (fm : String → String → Bool) (hooks hooks2 : List (String × Hook))
    (file_name content : String) (p : String) (f : Hook) :
    run_hook fm hooks file_name content
        = run_hook fm (hooks.filter (fun ph => fm file_name ph.1)) file_name content
    ∧ run_hook fm (hooks ++ hooks2) file_name content
        = run_hook fm hooks2 file_name (run_hook fm hooks file_name content)
    ∧ (∀ c2, fm file_name p = true → f content = Except.ok c2 →
        run_hook fm ((p, f) :: hooks) file_name content
          = run_hook fm hooks file_name c2)
    ∧ (∀ msg, fm file_name p = true → f content = Except.error msg →
        run_hook fm ((p, f) :: hooks) file_name content
          = run_hook fm hooks file_name content)
    ∧ (fm file_name p = false →
        run_hook fm ((p, f) :: hooks) file_name content
          = run_hook fm hooks file_name content) := by
  refine ⟨run_hook_filter fm file_name hooks content, ?_, ?_, ?_, ?_⟩
  · show (hooks ++ hooks2).foldl _ content = _
    rw [List.foldl_append]
    rfl
  · intro c2 hm hok
    rw [run_hook_cons, if_pos hm]
    show run_hook fm hooks file_name
      (match f content with
      | Except.ok c3 => c3
      | Except.error _ => content) = _
    rw [hok]
  · intro msg hm herr
    rw [run_hook_cons, if_pos hm]
    show run_hook fm hooks file_name
      (match f content with
      | Except.ok c3 => c3
      | Except.error _ => content) = _
    rw [herr]
  · intro hm
    rw [run_hook_cons, if_neg (by rw [hm]; simp)]

/-- Witness for C7: a matching hook's output is chained on; a raising
matching hook leaves the content unchanged. -/
theorem hook_pipeline_spec_witness :
    run_hook globFnmatch [("*.md", fun c => Except.ok (c ++ "A"))] "doc.md" "x"
      = run_hook globFnmatch [] "doc.md" ("x" ++ "A")
    ∧ run_hook globFnmatch [("*.md", fun _ => Except.error "boom")] "doc.md" "x"
      = run_hook globFnmatch [] "doc.md" "x" := by
  have h1 := hook_pipeline_spec globFnmatch [] [] "doc.md" "x" "*.md"
    (fun c => Except.ok (c ++ "A"))
  have h2 := hook_pipeline_spec globFnmatch [] [] "doc.md" "x" "*.md"
    (fun _ => Except.error "boom")
  exact ⟨h1.2.2.1 ("x" ++ "A") rfl rfl, h2.2.2.2.1 "boom" rfl rfl⟩

lemma mergedmap_lookup_cons (kv : String × String × List String) (l : MergedMap)
    (k : String) :
    MergedMap.lookup (kv :: l) k
      = if kv.1 = k then some kv.2 else MergedMap.lookup l k := by
  unfold MergedMap.lookup
  by_cases h : kv.1 = k <;> simp [List.find?_cons, h]

lemma lookup_set (mm : MergedMap) (k k2 : String) (v : String × List String) :
    MergedMap.lookup (MergedMap.set mm k v) k2
      = if k = k2 then some v else mm.lookup k2 := by
  induction mm with
  | nil =>
      show MergedMap.lookup [(k, v)] k2 = _
      rw [mergedmap_lookup_cons]
  | cons kv rest ih =>
      show MergedMap.lookup
        (if kv.1 = k then (k, v) :: rest else kv :: MergedMap.set rest k v) k2 = _
      by_cases hk : kv.1 = k
      · rw [if_pos hk, mergedmap_lookup_cons, mergedmap_lookup_cons]
        by_cases h2 : k = k2
        · rw [if_pos h2, if_pos h2]
        · rw [if_neg h2, if_neg h2, if_neg (by rw [hk]; exact h2)]
      · rw [if_neg hk, mergedmap_lookup_cons, ih, mergedmap_lookup_cons]
        by_cases h2 : k = k2
        · rw [if_pos h2, if_pos h2, if_neg (by rw [h2] at hk; exact hk)]
        · rw [if_neg h2, if_neg h2]

lemma lookup_process_file (fm : String → String → Bool) (gm : GetMerger)
    (pre : List (String × PreHook)) (entry : HierEntry) (acc : MergedMap)
    (kv : String × String) (k : String) :
    MergedMap.lookup (process_file fm gm pre entry acc kv) k
      = if kv.1 = k
        then key_step fm gm pre k (acc.lookup k) (entry, kv.2)
        else acc.lookup k := by
  unfold process_file key_step
  by_cases hk : kv.1 = k
  · rw [if_pos hk]
    subst hk
    cases hl : MergedMap.lookup acc kv.1 with
    | some es =>
        simp only [hl]
        rw [lookup_set, if_pos rfl]
    | none =>
        simp only [hl]
        rw [lookup_set, if_pos rfl]
  · rw [if_neg hk]
    cases hl : MergedMap.lookup acc kv.1 with
    | some es =>
        simp only [hl]
        rw [lookup_set, if_neg hk]
    | none =>
        simp only [hl]
        rw [lookup_set, if_neg hk]

lemma lookup_fold_files (fm : String → String → Bool) (gm : GetMerger)
    (pre : List (String × PreHook)) (entry : HierEntry) (k : String) :
    ∀ (files : List (String × String)) (acc : MergedMap),
      MergedMap.lookup (files.foldl (process_file fm gm pre entry) acc) k
        = ((files.filter (fun kv => kv.1 = k)).map (fun kv => (entry, kv.2))).foldl
            (key_step fm gm pre k) (acc.lookup k) := by
  intro files
  induction files with
  | nil => intro acc; rfl
  | cons kv fs ih =>
      intro acc
      rw [List.foldl_cons, ih, lookup_process_file]
      by_cases hk : kv.1 = k
      · rw [if_pos hk, List.filter_cons, if_pos (decide_eq_true hk), List.map_cons,
          List.foldl_cons]
      · rw [if_neg hk, List.filter_cons, if_neg (by simpa using hk)]

lemma lookup_accumulate_aux (fm : String → String → Bool) (gm : GetMerger)
    (pre : List (String × PreHook)) (scope k : String) :
    ∀ (hierarchy : List HierEntry) (acc : MergedMap),
      MergedMap.lookup (hierarchy.foldl (process_entry fm gm pre scope) acc) k
        = (contributions scope k hierarchy).foldl (key_step fm gm pre k)
            (acc.lookup k) := by
  intro hierarchy
  induction hierarchy with
  | nil => intro acc; rfl
  | cons e hs ih =>
      intro acc
      rw [List.foldl_cons, ih]
      show _ = ((if should_include_entry_for_scope e scope && e.present
          then (e.files.filter (fun kv => kv.1 = k)).map (fun kv => (e, kv.2))
          else []) ++ contributions scope k hs).foldl _ _
      rw [List.foldl_append]
      congr 1
      unfold process_entry
      by_cases h1 : should_include_entry_for_scope e scope
      · by_cases h2 : e.present
        · rw [if_neg (show ¬ ((! should_include_entry_for_scope e scope) = true) by
              rw [h1]; simp),
            if_neg (show ¬ ((! e.present) = true) by rw [h2]; simp),
            if_pos (show (should_include_entry_for_scope e scope && e.present) = true by
              rw [h1, h2]; rfl)]
          exact lookup_fold_files fm gm pre e k e.files acc
        · rw [if_neg (show ¬ ((! should_include_entry_for_scope e scope) = true) by
              rw [h1]; simp),
            if_pos (show ((! e.present) = true) by
              rw [Bool.eq_false_iff.mpr h2]; rfl),
            if_neg (show ¬ ((should_include_entry_for_scope e scope && e.present) = true) by
              rw [Bool.eq_false_iff.mpr h2]; simp)]
          rfl
      · rw [if_pos (show ((! should_include_entry_for_scope e scope) = true) by
            rw [Bool.eq_false_iff.mpr h1]; rfl),
          if_neg (show ¬ ((should_include_entry_for_scope e scope && e.present) = true) by
            rw [Bool.eq_false_iff.mpr h1]; simp)]
        rfl

lemma lookup_accumulate (fm : String → String → Bool) (gm : GetMerger)
    (pre : List (String × PreHook)) (scope : String) (hierarchy : List HierEntry)
    (k : String) :
    MergedMap.lookup (accumulate_merged fm gm pre scope hierarchy) k
      = key_result fm gm pre k (contributions scope k hierarchy) :=
  lookup_accumulate_aux fm gm pre scope k hierarchy []

/-- C5: for an output key contributed by exactly two sources, one low-
and one high-priority, the accumulated content is the
registry-selected merger applied to the (pre-hooked) low- and
high-priority contents, and the recorded source list is
`[low.name, high.name]` — for every hierarchy and file arrangement
whose contribution sequence for the key is those two, independent of
how other keys and files are interleaved. -/
theorem merge_priority_law (fm : String → String → Bool) (gm : GetMerger)
    (pre_hooks : List (String × PreHook)) (scope : String)
    (hierarchy : List HierEntry) (k : String) (low high : HierEntry)
    (c1 c2 : String)
    (h : contributions scope k hierarchy = [(low, c1), (high, c2)]) :
    MergedMap.lookup (accumulate_merged fm gm pre_hooks scope hierarchy) k
      = some (gm k (apply_pre_hooks fm pre_hooks low k c1)
            (apply_pre_hooks fm pre_hooks high k c2) high.name [low.name],
          [low.name, high.name]) := by
  rw [lookup_accumulate, h]
  rfl

/-- Witness for C5 (the spec's Scenario A shape): `org` then `team`
contribute `rules.md`; the concatenating merger output and both
source names are recorded. -/
theorem merge_priority_law_witness :
    MergedMap.lookup (accumulate_merged globFnmatch
        (fun _ a b _ _ => a ++ "\n" ++ b) [] "default"
        [⟨"org", none, true, "/r/org", [("rules.md", "A")]⟩,
         ⟨"team", none, true, "/r/team", [("rules.md", "B")]⟩]) "rules.md"
      = some ("A" ++ "\n" ++ "B", ["org", "team"]) :=
  merge_priority_law globFnmatch (fun _ a b _ _ => a ++ "\n" ++ b) [] "default"
    [⟨"org", none, true, "/r/org", [("rules.md", "A")]⟩,
     ⟨"team", none, true, "/r/team", [("rules.md", "B")]⟩] "rules.md"
    ⟨"org", none, true, "/r/org", [("rules.md", "A")]⟩
    ⟨"team", none, true, "/r/team", [("rules.md", "B")]⟩ "A" "B" rfl

/-- C1 (refuted on the code): the write loop of
`merge_configurations` consults no Safety Evaluator and updates no
manifest.  On an output directory holding an unmanaged `notes.txt` —
which `check_clobber` classifies CLOBBER_RISKY and the write policy,
without `force`, answers "do not write" — the engine overwrites the
file anyway; and its type has no manifest input or output at all. -/
theorem merge_configurations_skips_safety :
    (check_clobber "notes.txt" [("notes.txt", "old")] ⟨none, []⟩ none).action
      = ClobberAction.CLOBBER_RISKY
    ∧ should_write_file
        (check_clobber "notes.txt" [("notes.txt", "old")] ⟨none, []⟩ none) false false
      = false
    ∧ (merge_configurations globFnmatch (fun _ a b _ _ => a ++ b) [] [] "default"
        [⟨"org", none, true, "/r/org", [("notes.txt", "new content")]⟩]
        (fun _ => true) [("notes.txt", "old")]).lookup "notes.txt"
      = some "new content" := by
  refine ⟨by decide, by decide, rfl⟩
